import Mathlib

/-!
Verification of the mode-resolution / preheat-scheduling engine of the
`chauffage_intelligent` Home Assistant integration
(`custom_components/chauffage_intelligent/coordinator.py`).

The Python code is shallowly embedded: temperatures, rates and timestamps
become rationals (timestamps are minutes on a linear clock), Python `None`
becomes `Option`, dictionaries become association lists, and the per-tick
mutation of coordinator state becomes explicit state passing.
-/

namespace Chauffage

/-! ## Constants (const.py and the learning constants of coordinator.py) -/

def LEARNING_MIN_SAMPLES : ℕ := 5
def LEARNING_MAX_SAMPLES : ℕ := 100
def LEARNING_RATE_MIN : ℚ := 3/10
def LEARNING_RATE_MAX : ℚ := 5
def DEFAULT_HEATING_RATE : ℚ := 1

/-- Python `int(x)` truncates toward zero. -/
def pyInt (q : ℚ) : ℤ := if 0 ≤ q then ⌊q⌋ else ⌈q⌉

/-- Python `round(x, 3)`: rounding to 3 decimals (half-up; the claims never
exercise the tie case, where CPython rounds half-to-even on binary floats). -/
def round3 (q : ℚ) : ℚ := (⌊q * 1000 + 1/2⌋ : ℚ) / 1000

/-! ## HeatingRateLearner

`_data : dict[str, list[dict]]` becomes an association list from room id to
the list of stored observations.  The stored `timestamp` field is pure
logging metadata (never read by any computation in the source), so the
embedded observation keeps only the fields the code reads back:
`rate`, `outdoor_temp` and `hour` (`hour` is optional because
`get_predicted_rate` reads it with `sample.get("hour", 12)`). -/

structure Obs where
  rate : ℚ
  outdoor_temp : Option ℚ
  hour : Option ℕ
deriving DecidableEq, Repr

def Data := List (String × List Obs)

instance : DecidableEq Data := by unfold Data; infer_instance

/-- Python dicts as association lists: `d[k]` / `k in d`. -/
def alistGet {α β : Type} [DecidableEq α] : List (α × β) → α → Option β
  | [], _ => none
  | (k, v) :: rest, key => if k = key then some v else alistGet rest key

/-- `d[k] = v`: replace in place, or append a new key
(Python dicts keep insertion order). -/
def alistSet {α β : Type} [DecidableEq α] : List (α × β) → α → β → List (α × β)
  | [], key, v => [(key, v)]
  | (k, w) :: rest, key, v =>
      if k = key then (key, v) :: rest else (k, w) :: alistSet rest key v

/-- `del d[k]` (dict keys are unique, so removing the first hit suffices). -/
def alistDel {α β : Type} [DecidableEq α] : List (α × β) → α → List (α × β)
  | [], _ => []
  | (k, v) :: rest, key => if k = key then rest else (k, v) :: alistDel rest key

/-- `piece_id in self._data` / `self._data[piece_id]`. -/
def lookupRoom (d : Data) (piece : String) : Option (List Obs) :=
  alistGet d piece

/-- `self._data[piece_id] = v`. -/
def setRoom (d : Data) (piece : String) (v : List Obs) : Data :=
  alistSet d piece v

/-- Number of stored samples for a room (absent room counts as 0). -/
def sampleCount (d : Data) (piece : String) : ℕ :=
  ((lookupRoom d piece).getD []).length

/-- `HeatingRateLearner.record_observation`.  The `hour` argument is the
already-resolved hour of day (the source defaults a missing argument to
`dt_util.now().hour` before storing it). -/
def record_observation (d : Data) (piece : String) (heating_rate : ℚ)
    (outdoor_temp : Option ℚ) (hour : ℕ) : Data :=
  if heating_rate ≤ LEARNING_RATE_MIN then d
  else if LEARNING_RATE_MAX < heating_rate then d
  else
    let obs : Obs := ⟨round3 heating_rate, outdoor_temp, some hour⟩
    let appended := ((lookupRoom d piece).getD []) ++ [obs]
    let kept :=
      if LEARNING_MAX_SAMPLES < appended.length then
        appended.drop (appended.length - LEARNING_MAX_SAMPLES)
      else appended
    setRoom d piece kept

/-- `HeatingRateLearner._same_time_period.get_period`. -/
def get_period (h : ℕ) : ℕ :=
  if 6 ≤ h ∧ h < 12 then 1
  else if 12 ≤ h ∧ h < 18 then 2
  else if 18 ≤ h ∧ h < 22 then 3
  else 0

/-- `HeatingRateLearner._same_time_period`. -/
def same_time_period (h1 h2 : ℕ) : Bool := get_period h1 == get_period h2

/-- One iteration of the weighting loop of `get_predicted_rate`:
the accumulator is `(weighted_sum, weight_total)`. -/
def predictStep (hour : ℕ) (outdoor_temp : Option ℚ) (acc : ℚ × ℚ) (s : Obs) :
    ℚ × ℚ :=
  let w : ℚ := 1
  let w := if same_time_period hour (s.hour.getD 12) then w * (3/2) else w
  let w :=
    match outdoor_temp, s.outdoor_temp with
    | some o, some so =>
        if |o - so| ≤ 5 then w * (3/2)
        else if |o - so| ≤ 10 then w * 1
        else w * (1/2)
    | _, _ => w
  (acc.1 + s.rate * w, acc.2 + w)

/-- `HeatingRateLearner.get_predicted_rate` (the `hour` argument is the
already-resolved query hour, as in `record_observation`). -/
def get_predicted_rate (d : Data) (piece : String) (outdoor_temp : Option ℚ)
    (hour : ℕ) : Option ℚ :=
  match lookupRoom d piece with
  | none => none
  | some samples =>
      if samples.length < LEARNING_MIN_SAMPLES then none
      else
        let p := samples.foldl (predictStep hour outdoor_temp) (0, 0)
        if 0 < p.2 then some (p.1 / p.2) else none

/-! Closed-form weight of one sample, as the spec words it: start at 1,
multiply by 1.5 for a same-period sample, then by the outdoor-similarity
factor (1.5 / 1.0 / 0.5, only when both outdoor temperatures exist). -/

def outdoorFactor (outdoor_temp sample_outdoor : Option ℚ) : ℚ :=
  match outdoor_temp, sample_outdoor with
  | some o, some so =>
      if |o - so| ≤ 5 then 3/2 else if |o - so| ≤ 10 then 1 else 1/2
  | _, _ => 1

def sampleWeight (hour : ℕ) (outdoor_temp : Option ℚ) (s : Obs) : ℚ :=
  (if same_time_period hour (s.hour.getD 12) then (3/2 : ℚ) else 1) *
    outdoorFactor outdoor_temp s.outdoor_temp

theorem predictStep_eq (hour : ℕ) (outdoor_temp : Option ℚ) (acc : ℚ × ℚ)
    (s : Obs) :
    predictStep hour outdoor_temp acc s =
      (acc.1 + s.rate * sampleWeight hour outdoor_temp s,
       acc.2 + sampleWeight hour outdoor_temp s) := by
  unfold predictStep sampleWeight outdoorFactor
  rcases houter : outdoor_temp with _ | o <;>
    rcases hs : s.outdoor_temp with _ | so <;>
      simp only [] <;> split <;> ring_nf <;> split <;> split <;> ring

theorem foldl_predict (hour : ℕ) (outdoor_temp : Option ℚ) (l : List Obs)
    (a b : ℚ) :
    l.foldl (predictStep hour outdoor_temp) (a, b) =
      (a + (l.map (fun s => s.rate * sampleWeight hour outdoor_temp s)).sum,
       b + (l.map (sampleWeight hour outdoor_temp)).sum) := by
  induction l generalizing a b with
  | nil => simp
  | cons s rest ih =>
      simp only [List.foldl_cons, List.map_cons, List.sum_cons,
        predictStep_eq]
      rw [ih]
      simp [add_assoc]

theorem one_le_periodFactor (b : Bool) :
    (1 : ℚ) ≤ (if b then (3/2 : ℚ) else 1) := by
  cases b <;> norm_num

theorem half_le_outdoorFactor (o so : Option ℚ) :
    (1/2 : ℚ) ≤ outdoorFactor o so := by
  rcases o with _ | o <;> rcases so with _ | so <;> simp only [outdoorFactor]
  · norm_num
  · norm_num
  · norm_num
  · split
    · norm_num
    · split <;> norm_num

theorem half_le_sampleWeight (hour : ℕ) (outdoor_temp : Option ℚ) (s : Obs) :
    (1/2 : ℚ) ≤ sampleWeight hour outdoor_temp s := by
  unfold sampleWeight
  have h1 := one_le_periodFactor (same_time_period hour (s.hour.getD 12))
  have h2 := half_le_outdoorFactor outdoor_temp s.outdoor_temp
  calc (1/2 : ℚ) = 1 * (1/2) := by norm_num
    _ ≤ (if same_time_period hour (s.hour.getD 12) then (3/2 : ℚ) else 1) *
          outdoorFactor outdoor_temp s.outdoor_temp := by
        apply mul_le_mul h1 h2 (by norm_num)
        exact le_trans (by norm_num) h1

theorem weight_sum_pos (hour : ℕ) (outdoor_temp : Option ℚ) (l : List Obs)
    (hne : l ≠ []) :
    0 < (l.map (sampleWeight hour outdoor_temp)).sum := by
  induction l with
  | nil => exact absurd rfl hne
  | cons s rest ih =>
      simp only [List.map_cons, List.sum_cons]
      rcases eq_or_ne rest [] with h | h
      · subst h
        simpa using lt_of_lt_of_le (by norm_num)
          (half_le_sampleWeight hour outdoor_temp s)
      · have := ih h
        have hw := half_le_sampleWeight hour outdoor_temp s
        nlinarith

/-! ## Modes, sources and room configuration (const.py) -/

inductive Mode | confort | eco | hors_gel | off
deriving DecidableEq, Repr

inductive Source | calendrier | presence | defaut | override | anticipation
deriving DecidableEq, Repr

/-- The slice of a room's configuration dict that the engine reads:
`CONF_PIECE_NAME` (optional, defaults to the room id) and
`CONF_PIECE_TEMPERATURES` (a mode → °C map). -/
structure PieceConfig where
  name : Option String
  temperatures : List (Mode × ℚ)
deriving DecidableEq, Repr

def PiecesMap := List (String × PieceConfig)

/-! Python string primitives, modelled on the code-point (`List Char`)
level exactly as Python operates on code points: `str.lower`, `str.strip`
and `str.replace(" - ", " ")`.  (Lean's own `String.replace`/`String.trim`
are byte-position based and well-founded-recursive, so they are re-modelled
structurally here.) -/

/-- `str.lower()`. -/
def pyLower (l : List Char) : List Char := l.map Char.toLower

/-- `str.strip()`: drop whitespace from both ends. -/
def pyStrip (l : List Char) : List Char :=
  ((l.dropWhile Char.isWhitespace).reverse.dropWhile Char.isWhitespace).reverse

/-- `str.replace(" - ", " ")`: left-to-right, non-overlapping, the
replacement is not rescanned (Python continues after the matched span). -/
def collapseSep : List Char → List Char
  | ' ' :: '-' :: ' ' :: rest => ' ' :: collapseSep rest
  | c :: rest => c :: collapseSep rest
  | [] => []

/-- `self.pieces.get(piece_id, {}).get(CONF_PIECE_NAME, piece_id).lower()`. -/
def pieceNameOf (pieces : PiecesMap) (piece_id : String) : List Char :=
  match alistGet pieces piece_id with
  | some cfg => pyLower (cfg.name.getD piece_id).data
  | none => pyLower piece_id.data

/-! ## Calendar events -/

/-- A raw calendar event as the engine sees it: the summary string plus the
start/end instants.  The source accepts either pre-parsed datetimes or
ISO-8601 strings; a missing or unparseable instant is `none` here.
(`end` is a Lean keyword, hence `stop`.) -/
structure CalEvent where
  summary : String
  start : Option ℚ
  stop : Option ℚ
deriving DecidableEq, Repr

/-- Summary normalization shared by `_parse_calendar_events` and
`_find_next_comfort_event`: `summary.lower().strip().replace(" - ", " ")`. -/
def normalizeSummary (s : String) : List Char :=
  collapseSep (pyStrip (pyLower s.data))

/-- The classification a normalized summary receives in the event loop of
`_parse_calendar_events`: exactly `"absence"`, exactly `"confort"`, a
`"confort "`-prefixed room token (the remainder, stripped), or nothing. -/
inductive SummaryKind where
  | absence
  | confort
  | confortPiece (piece : List Char)
  | other
deriving DecidableEq, Repr

def summaryKind (s : String) : SummaryKind :=
  let summary := normalizeSummary s
  if summary = "absence".data then .absence
  else if summary = "confort".data then .confort
  else if "confort ".data.isPrefixOf summary then
    .confortPiece (pyStrip (summary.drop 8))
  else .other

/-- The structured signal set built by `_parse_calendar_events`
(`confort_pieces` is a Python set; the embedding keeps the insertion list
and only ever tests membership). -/
structure ParsedEvents where
  absence : Bool
  confort_global : Bool
  confort_pieces : List (List Char)
deriving DecidableEq, Repr

/-- The body of the `for event in events` loop of `_parse_calendar_events`. -/
def parseStep (now : ℚ) (r : ParsedEvents) (e : CalEvent) : ParsedEvents :=
  match e.start, e.stop with
  | some s, some en =>
      if s ≤ now ∧ now ≤ en then
        match summaryKind e.summary with
        | .absence => { r with absence := true }
        | .confort => { r with confort_global := true }
        | .confortPiece piece =>
            { r with confort_pieces := r.confort_pieces ++ [piece] }
        | .other => r
      else r
  | _, _ => r

/-- `_parse_calendar_events`. -/
def parse_calendar_events (events : List CalEvent) (now : ℚ) : ParsedEvents :=
  events.foldl (parseStep now) ⟨false, false, []⟩

/-- The relevance test of `_find_next_comfort_event`: the normalized summary
is `"confort"`, `"confort {piece_name}"` or `"confort {piece_id.lower()}"`. -/
def relevantSummary (pieces : PiecesMap) (piece_id : String) (s : String) :
    Bool :=
  let summary := normalizeSummary s
  summary = "confort".data ∨
  summary = "confort ".data ++ pieceNameOf pieces piece_id ∨
  summary = "confort ".data ++ pyLower piece_id.data

/-- The update condition of the selection loop of
`_find_next_comfort_event`: `next_start is None or start < next_start`. -/
def betterStart (acc : Option (CalEvent × ℚ)) (s : ℚ) : Bool :=
  match acc with
  | none => true
  | some (_, s') => s < s'

/-- The selection loop of `_find_next_comfort_event`, with the
`(next_event, next_start)` accumulator made explicit. -/
def findNextFold (pieces : PiecesMap) (piece_id : String) (now : ℚ) :
    List CalEvent → Option (CalEvent × ℚ) → Option (CalEvent × ℚ)
  | [], acc => acc
  | e :: rest, acc =>
      if relevantSummary pieces piece_id e.summary then
        match e.start with
        | some s =>
            if s ≤ now then findNextFold pieces piece_id now rest acc
            else if betterStart acc s then
              findNextFold pieces piece_id now rest (some (e, s))
            else findNextFold pieces piece_id now rest acc
        | none => findNextFold pieces piece_id now rest acc
      else findNextFold pieces piece_id now rest acc

/-- `_find_next_comfort_event`. -/
def find_next_comfort_event (pieces : PiecesMap) (piece_id : String)
    (calendar_events : List CalEvent) (now : ℚ) : Option CalEvent :=
  (findNextFold pieces piece_id now calendar_events none).map (·.1)

/-- `_check_preheat_trigger` (`preheat_time` is in minutes, as is the clock). -/
def check_preheat_trigger (pieces : PiecesMap) (piece_id : String)
    (calendar_events : List CalEvent) (preheat_time : ℤ) (now : ℚ) : Bool :=
  match find_next_comfort_event pieces piece_id calendar_events now with
  | none => false
  | some e =>
      match e.start with
      | none => false
      | some s =>
          if s ≤ now then false
          else decide ((s - now) ≤ (preheat_time : ℚ))

/-! ## Mode resolution -/

def Overrides := List (String × (Mode × Option ℚ))

instance : DecidableEq Overrides := by unfold Overrides; infer_instance

/-- Priorities 1–5 of `_resolve_mode` (everything after the override check). -/
def resolveChain (pieces : PiecesMap) (piece_id : String)
    (parsed : ParsedEvents) (maison_occupee : Bool) : Mode × Source :=
  if parsed.absence then (Mode.hors_gel, Source.calendrier)
  else if !maison_occupee then (Mode.eco, Source.presence)
  else if pieceNameOf pieces piece_id ∈ parsed.confort_pieces then
    (Mode.confort, Source.calendrier)
  else if pyLower piece_id.data ∈ parsed.confort_pieces then
    (Mode.confort, Source.calendrier)
  else if parsed.confort_global then (Mode.confort, Source.calendrier)
  else (Mode.eco, Source.defaut)

/-- `_resolve_mode`: the override check (an expired override is deleted and
the chain falls through) followed by the priority chain.  Returns the
`(mode, source)` pair and the override map as left by the call. -/
def resolve_mode (ov : Overrides) (pieces : PiecesMap) (piece_id : String)
    (parsed : ParsedEvents) (maison_occupee : Bool) (now : ℚ) :
    (Mode × Source) × Overrides :=
  match alistGet ov piece_id with
  | some (mode, expiry) =>
      match expiry with
      | none => ((mode, Source.override), ov)
      | some e =>
          if now < e then ((mode, Source.override), ov)
          else
            (resolveChain pieces piece_id parsed maison_occupee,
             alistDel ov piece_id)
  | none => (resolveChain pieces piece_id parsed maison_occupee, ov)

/-! ## Preheat estimation -/

/-- `compute_preheat_time` (coordinator configuration passed explicitly:
`security_factor` and `min_preheat_time`). -/
def compute_preheat_time (security_factor : ℚ) (min_preheat_time : ℤ)
    (current_temp : Option ℚ) (target_temp : ℚ) (heating_rate : Option ℚ) :
    ℤ :=
  match current_temp with
  | none => min_preheat_time
  | some current =>
      let delta := target_temp - current
      if delta ≤ 0 then 0
      else
        let effective_rate :=
          match heating_rate with
          | none => DEFAULT_HEATING_RATE
          | some r => if r ≤ 0 then DEFAULT_HEATING_RATE else r
        let raw_time := (delta / effective_rate) * 60
        let time_with_margin := raw_time * security_factor
        max (pyInt time_with_margin) min_preheat_time

/-! ## Temperature history and measured rate -/

/-- `_compute_derivative`, acting on one room's sliding window
(`derivative_window` in minutes).  Returns the computed rate and the new
window. -/
def compute_derivative (derivative_window : ℚ) (hist : List (ℚ × ℚ))
    (current_temp : Option ℚ) (now : ℚ) : Option ℚ × List (ℚ × ℚ) :=
  match current_temp with
  | none => (none, hist)
  | some current =>
      let appended := hist ++ [(now, current)]
      let cutoff := now - derivative_window
      let kept := appended.filter (fun p => cutoff ≤ p.1)
      if kept.length < 2 then (none, kept)
      else
        let oldest := kept.head?.getD (0, 0)
        let newest := kept.getLast?.getD (0, 0)
        let time_diff_hours := (newest.1 - oldest.1) / 60
        if time_diff_hours ≤ 0 then (none, kept)
        else (some ((newest.2 - oldest.2) / time_diff_hours), kept)

/-! ## Per-tick per-room orchestration (`_async_update_data`, lines 265–344) -/

/-- `_learn_heating_rate`. -/
def learn_heating_rate (d : Data) (piece_id : String) (current_mode : Mode)
    (heating_rate : Option ℚ) (outdoor_temp : Option ℚ) (nowHour : ℕ) :
    Data :=
  if current_mode ≠ Mode.confort then d
  else
    match heating_rate with
    | none => d
    | some r => if r ≤ 0 then d else record_observation d piece_id r outdoor_temp nowHour

/-- The per-room slice of the emitted `pieces_data[piece_id]` record
(the trailing `learning_samples` / `learning_avg_rate` statistics are
display-only copies of learner state and are kept in the returned learner
`Data` instead). -/
structure RoomDecision where
  mode : Mode
  source : Source
  consigne : ℚ
  temperature : Option ℚ
  vitesse_chauffe : Option ℚ
  vitesse_apprise : Option ℚ
  temps_prechauffage : ℤ
  prechauffage_actif : Bool
  prochain_evenement : Option ℚ
deriving DecidableEq, Repr

/-- Lines 310–314 of `_async_update_data`: if preheating triggered while the
resolved mode is Eco, upgrade this tick's emitted mode, target and source to
Comfort / the configured Comfort temperature / Anticipation. -/
def applyAnticipation (piece_config : PieceConfig) (dec : RoomDecision) :
    RoomDecision :=
  if dec.prechauffage_actif ∧ dec.mode = Mode.eco then
    { dec with
        mode := Mode.confort,
        consigne := (alistGet piece_config.temperatures Mode.confort).getD 19,
        source := Source.anticipation }
  else dec

/-- The body of the `for piece_id, piece_config in self.pieces.items()` loop
of `_async_update_data` for one room: sensor readings (`temp_actuelle`,
`outdoor_temp`) and the tick-wide signals (`parsed`, `maison_occupee`) are
inputs; the mutable coordinator state touched by the loop (override map,
temperature window, learner data) is threaded explicitly. -/
def updateRoomTick (pieces : PiecesMap) (piece_id : String)
    (piece_config : PieceConfig) (security_factor : ℚ)
    (min_preheat_time : ℤ) (derivative_window : ℚ) (ov : Overrides)
    (hist : List (ℚ × ℚ)) (learner : Data) (calendar_events : List CalEvent)
    (parsed : ParsedEvents) (maison_occupee : Bool)
    (outdoor_temp : Option ℚ) (temp_actuelle : Option ℚ) (now : ℚ)
    (nowHour : ℕ) : RoomDecision × Overrides × List (ℚ × ℚ) × Data :=
  let dv := compute_derivative derivative_window hist temp_actuelle now
  let vitesse_mesuree := dv.1
  let vitesse_apprise := get_predicted_rate learner piece_id outdoor_temp nowHour
  let vitesse := match vitesse_mesuree with
    | some v => some v
    | none => vitesse_apprise
  let rm := resolve_mode ov pieces piece_id parsed maison_occupee now
  let mode := rm.1.1
  let source := rm.1.2
  let consigne := (alistGet piece_config.temperatures mode).getD 19
  let vitesse_pour_calcul := match vitesse with
    | some v => some v
    | none => vitesse_apprise
  let temps_prechauffe :=
    compute_preheat_time security_factor min_preheat_time temp_actuelle
      consigne vitesse_pour_calcul
  let prochain_evenement :=
    (find_next_comfort_event pieces piece_id calendar_events now).bind (·.start)
  let prechauffage_actif :=
    check_preheat_trigger pieces piece_id calendar_events temps_prechauffe now
  let pre : RoomDecision :=
    ⟨mode, source, consigne, temp_actuelle, vitesse, vitesse_apprise,
      temps_prechauffe, prechauffage_actif, prochain_evenement⟩
  let dec := applyAnticipation piece_config pre
  let learner2 :=
    learn_heating_rate learner piece_id dec.mode vitesse_mesuree outdoor_temp
      nowHour
  (dec, rm.2, dv.2, learner2)

/-! ## Association-list lemmas -/

theorem alistGet_set_self {α β : Type} [DecidableEq α]
    (l : List (α × β)) (k : α) (v : β) :
    alistGet (alistSet l k v) k = some v := by
  induction l with
  | nil => simp [alistSet, alistGet]
  | cons p rest ih =>
      obtain ⟨k', w⟩ := p
      by_cases h : k' = k
      · simp [alistSet, alistGet, h]
      · simp [alistSet, alistGet, h, ih]

/-! ## Claim theorems -/

/-- The effective rate as the spec words it: the supplied rate when present
and positive, else the 1.0 °C/h fallback. -/
def specEffectiveRate (rate : Option ℚ) : ℚ :=
  match rate with
  | none => 1
  | some r => if r ≤ 0 then 1 else r

theorem effectiveRate_eq (rate : Option ℚ) :
    (match rate with
     | none => DEFAULT_HEATING_RATE
     | some r => if r ≤ 0 then DEFAULT_HEATING_RATE else r) =
    specEffectiveRate rate := by
  rcases rate with _ | r <;> simp [DEFAULT_HEATING_RATE, specEffectiveRate]

theorem specEffectiveRate_pos (rate : Option ℚ) : 0 < specEffectiveRate rate := by
  unfold specEffectiveRate
  rcases rate with _ | r
  · norm_num
  · simp only []
    split
    · norm_num
    · linarith [lt_of_not_le (by assumption : ¬ r ≤ 0)]

/-- **C2** (counterexample): the spec's first test vector is arithmetically
off: with current 17, target 20, rate 1.5 and safety factor 1.3 (minimum 30)
the code returns `int((3/1.5)×60×1.3) = 156`, not 234. -/
theorem compute_preheat_time_vector_ne_234 :
    compute_preheat_time (13/10) 30 (some 17) 20 (some (3/2)) = 156 ∧
    (156 : ℤ) ≠ 234 := by
  constructor
  · norm_num [compute_preheat_time, pyInt, DEFAULT_HEATING_RATE, max_def]
  · decide

/-- **C2** (amended): with current 17, target 20, rate 1.5, safety 1.3 the
result is `⌊(3/1.5)×60×1.3⌋ = 156` (the spec's 234 is the absent-rate case,
where the rate falls back to 1.0 °C/h: `⌊(3/1.0)×60×1.3⌋ = 234`); a
non-positive delta yields 0 for any rate; an absent current temperature
yields the configured minimum; and in general the result is
`⌊(delta/effectiveRate)×60×safetyFactor⌋` clamped upward to the minimum,
with `effectiveRate` falling back to 1.0 when the rate is absent or ≤ 0. -/
theorem compute_preheat_time_spec (security_factor : ℚ) (min_preheat : ℤ)
    (target : ℚ) (rate : Option ℚ) :
    compute_preheat_time (13/10) 30 (some 17) 20 (some (3/2)) = 156 ∧
    compute_preheat_time (13/10) 30 (some 17) 20 none = 234 ∧
    compute_preheat_time security_factor min_preheat (some 20) 19 rate = 0 ∧
    compute_preheat_time security_factor min_preheat none target rate =
      min_preheat ∧
    (∀ current : ℚ, 0 < target - current → 0 ≤ security_factor →
      compute_preheat_time security_factor min_preheat (some current) target
          rate =
        max ⌊(target - current) / specEffectiveRate rate * 60 *
              security_factor⌋
          min_preheat) := by
  refine ⟨?_, ?_, ?_, rfl, ?_⟩
  · norm_num [compute_preheat_time, pyInt, DEFAULT_HEATING_RATE, max_def]
  · norm_num [compute_preheat_time, pyInt, DEFAULT_HEATING_RATE, max_def]
  · show compute_preheat_time security_factor min_preheat (some 20) 19 rate = 0
    simp [compute_preheat_time]
    norm_num
  · intro current hdelta hsf
    have her := specEffectiveRate_pos rate
    have hnonneg :
        0 ≤ (target - current) / specEffectiveRate rate * 60 *
            security_factor := by
      have h1 := le_of_lt (div_pos hdelta her)
      exact mul_nonneg (mul_nonneg h1 (by norm_num)) hsf
    simp only [compute_preheat_time]
    rw [if_neg (by linarith), effectiveRate_eq]
    simp only [pyInt]
    rw [if_pos hnonneg]

/-- **C2** (witness for `compute_preheat_time_spec`): instantiating the
general formula at current 16, target 20, rate 2 gives
`max ⌊(4/2)×60×1.3⌋ 30 = 156`. -/
theorem compute_preheat_time_spec_witness :
    compute_preheat_time (13/10) 30 (some 16) 20 (some 2) = 156 := by
  have h := (compute_preheat_time_spec (13/10) 30 20 (some 2)).2.2.2.2 16
    (by norm_num) (by norm_num)
  rw [h]
  norm_num [specEffectiveRate, max_def]

/-- **C5**: `_compute_derivative` leaves the history untouched and returns
absent when the current temperature is absent; otherwise, on the window
obtained by appending the new sample and pruning entries older than the
derivative window, it returns absent when fewer than 2 entries remain or the
elapsed time from oldest to newest is ≤ 0, and the two-point secant slope
(Δtemp divided by elapsed hours) otherwise; 1.0 °C gained over 30 minutes
gives 2.0 °C/h and 1.0 °C lost gives −2.0 °C/h. -/
theorem compute_derivative_spec (window : ℚ) (hist : List (ℚ × ℚ)) (now : ℚ) :
    compute_derivative window hist none now = (none, hist) ∧
    (∀ current : ℚ,
      (((hist ++ [(now, current)]).filter
            (fun p => now - window ≤ p.1)).length < 2 →
        (compute_derivative window hist (some current) now).1 = none) ∧
      (∀ oldest newest : ℚ × ℚ,
        ((hist ++ [(now, current)]).filter
            (fun p => now - window ≤ p.1)).head? = some oldest →
        ((hist ++ [(now, current)]).filter
            (fun p => now - window ≤ p.1)).getLast? = some newest →
        2 ≤ ((hist ++ [(now, current)]).filter
            (fun p => now - window ≤ p.1)).length →
        ((newest.1 - oldest.1 ≤ 0 →
            (compute_derivative window hist (some current) now).1 = none) ∧
         (0 < newest.1 - oldest.1 →
            (compute_derivative window hist (some current) now).1 =
              some ((newest.2 - oldest.2) /
                ((newest.1 - oldest.1) / 60)))))) ∧
    compute_derivative 30 [(0, 19)] (some 20) 30 =
      (some 2, [(0, 19), (30, 20)]) ∧
    compute_derivative 30 [(0, 20)] (some 19) 30 =
      (some (-2), [(0, 20), (30, 19)]) := by
  refine ⟨rfl, ?_, by norm_num [compute_derivative, List.filter_cons],
    by norm_num [compute_derivative, List.filter_cons]⟩
  intro current
  constructor
  · intro hlen
    simp only [compute_derivative]
    rw [if_pos hlen]
  · intro oldest newest hhead hlast hlen
    have hnotlt : ¬ (((hist ++ [(now, current)]).filter
        (fun p => now - window ≤ p.1)).length < 2) := by omega
    constructor
    · intro hdt
      have hdiv : (newest.1 - oldest.1) / 60 ≤ 0 :=
        div_nonpos_iff.mpr (Or.inr ⟨hdt, by norm_num⟩)
      simp only [compute_derivative]
      rw [if_neg hnotlt]
      simp only [hhead, hlast, Option.getD_some]
      rw [if_pos hdiv]
    · intro hdt
      have hdiv : 0 < (newest.1 - oldest.1) / 60 :=
        div_pos hdt (by norm_num)
      simp only [compute_derivative]
      rw [if_neg hnotlt]
      simp only [hhead, hlast, Option.getD_some]
      rw [if_neg (not_le.mpr hdiv)]

/-- **C5** (witness for `compute_derivative_spec`): two readings 1.0 °C and
30 minutes apart yield 2.0 °C/h via the general secant-slope clause. -/
theorem compute_derivative_spec_witness :
    (compute_derivative 30 [(0, 19)] (some 20) 30).1 = some 2 := by
  have h := (((compute_derivative_spec 30 [(0, 19)] 30).2.1 20).2 (0, 19)
    (30, 20) (by norm_num [List.filter_cons]) (by norm_num [List.filter_cons])
    (by norm_num [List.filter_cons])).2 (by norm_num)
  rw [h]
  norm_num

/-- **C4** (counterexample): with a room already holding 100 stored samples,
a valid rate (0.3 < 1 ≤ 5.0) does not increase the stored sample count —
the history is capped at 100, evicting the oldest entry. -/
theorem record_observation_cap_counterexample :
    LEARNING_RATE_MIN < 1 ∧ (1 : ℚ) ≤ LEARNING_RATE_MAX ∧
    sampleCount [("salon", List.replicate 100 (⟨1, none, some 10⟩ : Obs))]
      "salon" = 100 ∧
    sampleCount
      (record_observation
        [("salon", List.replicate 100 (⟨1, none, some 10⟩ : Obs))]
        "salon" 1 none 10) "salon" = 100 := by
  refine ⟨by norm_num [LEARNING_RATE_MIN], by norm_num [LEARNING_RATE_MAX],
    by simp [sampleCount, lookupRoom, alistGet], ?_⟩
  simp only [record_observation, LEARNING_RATE_MIN, LEARNING_RATE_MAX,
    LEARNING_MAX_SAMPLES]
  rw [if_neg (by norm_num), if_neg (by norm_num)]
  simp [sampleCount, lookupRoom, setRoom, alistGet, alistSet]

/-- **C4** (amended): for 0.3 < r ≤ 5.0, `record_observation` appends the
rate rounded to 3 decimals together with the outdoor temperature and hour,
so the stored sample count becomes `min (count + 1) 100` — it increases by 1
exactly when the room held fewer than 100 samples, and stays at 100
otherwise (oldest evicted); for r ≤ 0.3 or r > 5.0 the call is a no-op (the
value is dropped, not clamped, and no error is raised). -/
theorem record_observation_spec (d : Data) (piece : String) (r : ℚ)
    (outdoor : Option ℚ) (hour : ℕ) :
    (LEARNING_RATE_MIN < r → r ≤ LEARNING_RATE_MAX →
      sampleCount (record_observation d piece r outdoor hour) piece =
        min (sampleCount d piece + 1) 100) ∧
    (LEARNING_RATE_MIN < r → r ≤ LEARNING_RATE_MAX →
      sampleCount d piece < 100 →
      lookupRoom (record_observation d piece r outdoor hour) piece =
        some (((lookupRoom d piece).getD []) ++
          [⟨round3 r, outdoor, some hour⟩])) ∧
    (r ≤ LEARNING_RATE_MIN ∨ LEARNING_RATE_MAX < r →
      record_observation d piece r outdoor hour = d) := by
  refine ⟨?_, ?_, ?_⟩
  · intro hlo hhi
    simp only [record_observation, LEARNING_MAX_SAMPLES]
    rw [if_neg (not_le.mpr hlo), if_neg (not_lt.mpr hhi)]
    simp only [sampleCount, lookupRoom, setRoom, alistGet_set_self,
      Option.getD_some]
    split
    · rename_i hgt
      rw [List.length_drop]
      simp only [lookupRoom, List.length_append, List.length_singleton]
        at hgt ⊢
      omega
    · rename_i hle
      simp only [lookupRoom, List.length_append, List.length_singleton]
        at hle ⊢
      omega
  · intro hlo hhi hcount
    simp only [record_observation, LEARNING_MAX_SAMPLES]
    rw [if_neg (not_le.mpr hlo), if_neg (not_lt.mpr hhi)]
    simp only [lookupRoom, setRoom, alistGet_set_self]
    rw [if_neg (by
      simp only [List.length_append, List.length_singleton]
      simp only [sampleCount, lookupRoom] at hcount
      omega)]
  · intro hout
    rcases hout with hlo | hhi
    · simp only [record_observation]
      rw [if_pos hlo]
    · have hminmax : LEARNING_RATE_MIN < r :=
        lt_trans (by norm_num [LEARNING_RATE_MIN, LEARNING_RATE_MAX]) hhi
      simp only [record_observation]
      rw [if_neg (not_le.mpr hminmax), if_pos hhi]

/-- **C4** (witness for `record_observation_spec`): recording rate 1 into an
empty store yields one sample. -/
theorem record_observation_spec_witness :
    sampleCount (record_observation [] "salon" 1 none 10) "salon" = 1 := by
  have h := (record_observation_spec [] "salon" 1 none 10).1
    (by norm_num [LEARNING_RATE_MIN]) (by norm_num [LEARNING_RATE_MAX])
  rw [h]
  norm_num [sampleCount, lookupRoom, alistGet]

/-- The override-check condition of `_resolve_mode`
(`expiry is None or dt_util.now() < expiry`), read off as the currently
active override, if any. -/
def activeOverride (ov : Overrides) (piece_id : String) (now : ℚ) :
    Option Mode :=
  match alistGet ov piece_id with
  | some (mode, none) => some mode
  | some (mode, some e) => if now < e then some mode else none
  | none => none

theorem resolve_mode_fst_of_active (ov : Overrides) (pieces : PiecesMap)
    (piece_id : String) (parsed : ParsedEvents) (occ : Bool) (now : ℚ)
    (m : Mode) (h : activeOverride ov piece_id now = some m) :
    (resolve_mode ov pieces piece_id parsed occ now).1 =
      (m, Source.override) := by
  unfold activeOverride at h
  unfold resolve_mode
  rcases hov : alistGet ov piece_id with _ | ⟨mode, expiry⟩
  · rw [hov] at h; exact absurd h (by simp)
  · rw [hov] at h
    rcases expiry with _ | e
    · simp only [] at h ⊢
      simp only [Option.some.injEq] at h
      rw [h]
    · simp only [] at h ⊢
      by_cases hlt : now < e
      · rw [if_pos hlt] at h ⊢
        simp only [Option.some.injEq] at h
        rw [h]
      · rw [if_neg hlt] at h
        exact absurd h (by simp)

theorem resolve_mode_fst_of_noActive (ov : Overrides) (pieces : PiecesMap)
    (piece_id : String) (parsed : ParsedEvents) (occ : Bool) (now : ℚ)
    (h : activeOverride ov piece_id now = none) :
    (resolve_mode ov pieces piece_id parsed occ now).1 =
      resolveChain pieces piece_id parsed occ := by
  unfold activeOverride at h
  unfold resolve_mode
  rcases hov : alistGet ov piece_id with _ | ⟨mode, expiry⟩
  · rfl
  · rw [hov] at h
    rcases expiry with _ | e
    · exact absurd h (by simp)
    · simp only [] at h ⊢
      by_cases hlt : now < e
      · rw [if_pos hlt] at h
        exact absurd h (by simp)
      · rw [if_neg hlt]

/-- **C1**: `_resolve_mode` follows the strict first-match priority chain:
an unexpired override wins (returning its mode with source Override); then
an active absence event (FrostGuard/Calendar); then house-wide presence
false (Eco/Presence); then a room-specific comfort match by display name or
room id, lowercased (Comfort/Calendar); then global comfort
(Comfort/Calendar); otherwise Eco/Default. -/
theorem resolve_mode_priority (ov : Overrides) (pieces : PiecesMap)
    (piece_id : String) (parsed : ParsedEvents) (occ : Bool) (now : ℚ) :
    (∀ m : Mode, activeOverride ov piece_id now = some m →
      (resolve_mode ov pieces piece_id parsed occ now).1 =
        (m, Source.override)) ∧
    (activeOverride ov piece_id now = none → parsed.absence = true →
      (resolve_mode ov pieces piece_id parsed occ now).1 =
        (Mode.hors_gel, Source.calendrier)) ∧
    (activeOverride ov piece_id now = none → parsed.absence = false →
      occ = false →
      (resolve_mode ov pieces piece_id parsed occ now).1 =
        (Mode.eco, Source.presence)) ∧
    (activeOverride ov piece_id now = none → parsed.absence = false →
      occ = true →
      (pieceNameOf pieces piece_id ∈ parsed.confort_pieces ∨
        pyLower piece_id.data ∈ parsed.confort_pieces) →
      (resolve_mode ov pieces piece_id parsed occ now).1 =
        (Mode.confort, Source.calendrier)) ∧
    (activeOverride ov piece_id now = none → parsed.absence = false →
      occ = true →
      pieceNameOf pieces piece_id ∉ parsed.confort_pieces →
      pyLower piece_id.data ∉ parsed.confort_pieces →
      parsed.confort_global = true →
      (resolve_mode ov pieces piece_id parsed occ now).1 =
        (Mode.confort, Source.calendrier)) ∧
    (activeOverride ov piece_id now = none → parsed.absence = false →
      occ = true →
      pieceNameOf pieces piece_id ∉ parsed.confort_pieces →
      pyLower piece_id.data ∉ parsed.confort_pieces →
      parsed.confort_global = false →
      (resolve_mode ov pieces piece_id parsed occ now).1 =
        (Mode.eco, Source.defaut)) := by
  refine ⟨fun m h => resolve_mode_fst_of_active ov pieces piece_id parsed
    occ now m h, ?_, ?_, ?_, ?_, ?_⟩
  · intro h habs
    rw [resolve_mode_fst_of_noActive ov pieces piece_id parsed occ now h]
    simp [resolveChain, habs]
  · intro h habs hocc
    rw [resolve_mode_fst_of_noActive ov pieces piece_id parsed occ now h]
    simp [resolveChain, habs, hocc]
  · intro h habs hocc hmem
    rw [resolve_mode_fst_of_noActive ov pieces piece_id parsed occ now h]
    simp only [resolveChain, habs, hocc, Bool.false_eq_true, if_false,
      Bool.not_true, Bool.false_eq_true, if_false]
    rcases hmem with hmem | hmem
    · rw [if_pos hmem]
    · by_cases hname : pieceNameOf pieces piece_id ∈ parsed.confort_pieces
      · rw [if_pos hname]
      · rw [if_neg hname, if_pos hmem]
  · intro h habs hocc hname hid hglob
    rw [resolve_mode_fst_of_noActive ov pieces piece_id parsed occ now h]
    simp only [resolveChain, habs, hocc, Bool.false_eq_true, if_false,
      Bool.not_true]
    rw [if_neg hname, if_neg hid]
    simp [hglob]
  · intro h habs hocc hname hid hglob
    rw [resolve_mode_fst_of_noActive ov pieces piece_id parsed occ now h]
    simp only [resolveChain, habs, hocc, Bool.false_eq_true, if_false,
      Bool.not_true]
    rw [if_neg hname, if_neg hid]
    simp [hglob]

/-- **C1** (witness for `resolve_mode_priority`): an indefinite Comfort
override beats a concurrently active absence event. -/
theorem resolve_mode_priority_witness :
    (resolve_mode [("salon", (Mode.confort, none))] [] "salon"
      ⟨true, false, []⟩ false 0).1 = (Mode.confort, Source.override) :=
  (resolve_mode_priority [("salon", (Mode.confort, none))] [] "salon"
    ⟨true, false, []⟩ false 0).1 Mode.confort (by
      simp [activeOverride, alistGet])

/-- **C10**: once a room has at least 5 stored samples, `get_predicted_rate`
always returns a value: every sample weight is at least 1/2, so the total
weight is strictly positive and the trailing `None` branch after the
weighting loop is unreachable. -/
theorem get_predicted_rate_total (d : Data) (piece : String)
    (outdoor_temp : Option ℚ) (hour : ℕ)
    (h5 : LEARNING_MIN_SAMPLES ≤ sampleCount d piece) :
    ∃ v, get_predicted_rate d piece outdoor_temp hour = some v := by
  unfold get_predicted_rate
  rcases hl : lookupRoom d piece with _ | samples
  · exfalso
    simp [sampleCount, hl, LEARNING_MIN_SAMPLES] at h5
  · have hlen : LEARNING_MIN_SAMPLES ≤ samples.length := by
      simpa [sampleCount, hl] using h5
    have hne : samples ≠ [] := by
      intro hemp
      rw [hemp] at hlen
      simp [LEARNING_MIN_SAMPLES] at hlen
    have hpos := weight_sum_pos hour outdoor_temp samples hne
    simp only [hl]
    rw [if_neg (not_lt.mpr hlen), foldl_predict]
    simp only [zero_add]
    rw [if_pos hpos]
    exact ⟨_, rfl⟩

/-- **C10** (witness for `get_predicted_rate_total`): five stored samples
suffice for a prediction. -/
theorem get_predicted_rate_total_witness :
    ∃ v, get_predicted_rate
      [("bureau", List.replicate 5 (⟨1, none, some 10⟩ : Obs))] "bureau"
      none 10 = some v :=
  get_predicted_rate_total _ "bureau" none 10 (by
    norm_num [sampleCount, lookupRoom, alistGet, LEARNING_MIN_SAMPLES])

theorem sum_map_rate_const (l : List Obs) (R : ℚ) (f : Obs → ℚ)
    (h : ∀ s ∈ l, s.rate = R) :
    (l.map (fun s => s.rate * f s)).sum = R * (l.map f).sum := by
  induction l with
  | nil => simp
  | cons s rest ih =>
      simp only [List.map_cons, List.sum_cons]
      rw [h s (List.mem_cons_self s rest), ih (fun t ht =>
        h t (List.mem_cons_of_mem s ht))]
      ring

/-- **C3**: `get_predicted_rate` returns absent for fewer than 5 stored
samples; with at least 5 it returns the weighted mean
`sum(rate×weight)/sum(weight)` where each weight starts at 1.0, is ×1.5 for
a sample in the same time-period bucket (night 22–6, morning 6–12,
afternoon 12–18, evening 18–22) as the query hour, and ×1.5 / ×1.0 / ×0.5
by outdoor-temperature distance (≤5 / ≤10 / otherwise) when both outdoor
temperatures are present; for ≥5 identical samples at rate R it returns R. -/
theorem get_predicted_rate_weighted_mean (d : Data) (piece : String)
    (outdoor_temp : Option ℚ) (hour : ℕ) (R : ℚ) :
    (sampleCount d piece < LEARNING_MIN_SAMPLES →
      get_predicted_rate d piece outdoor_temp hour = none) ∧
    (∀ samples, lookupRoom d piece = some samples →
      LEARNING_MIN_SAMPLES ≤ samples.length →
      get_predicted_rate d piece outdoor_temp hour =
        some ((samples.map
            (fun s => s.rate * sampleWeight hour outdoor_temp s)).sum /
          (samples.map (sampleWeight hour outdoor_temp)).sum)) ∧
    (∀ samples, lookupRoom d piece = some samples →
      LEARNING_MIN_SAMPLES ≤ samples.length →
      (∀ s ∈ samples, s.rate = R) →
      get_predicted_rate d piece outdoor_temp hour = some R) := by
  have hmean : ∀ samples, lookupRoom d piece = some samples →
      LEARNING_MIN_SAMPLES ≤ samples.length →
      get_predicted_rate d piece outdoor_temp hour =
        some ((samples.map
            (fun s => s.rate * sampleWeight hour outdoor_temp s)).sum /
          (samples.map (sampleWeight hour outdoor_temp)).sum) := by
    intro samples hl hlen
    have hne : samples ≠ [] := by
      intro hemp
      rw [hemp] at hlen
      simp [LEARNING_MIN_SAMPLES] at hlen
    have hpos := weight_sum_pos hour outdoor_temp samples hne
    unfold get_predicted_rate
    simp only [hl]
    rw [if_neg (not_lt.mpr hlen), foldl_predict]
    simp only [zero_add]
    rw [if_pos hpos]
  refine ⟨?_, hmean, ?_⟩
  · intro hcount
    unfold get_predicted_rate
    rcases hl : lookupRoom d piece with _ | samples
    · rfl
    · have : samples.length < LEARNING_MIN_SAMPLES := by
        simpa [sampleCount, hl] using hcount
      simp only [hl]
      rw [if_pos this]
  · intro samples hl hlen hR
    have hne : samples ≠ [] := by
      intro hemp
      rw [hemp] at hlen
      simp [LEARNING_MIN_SAMPLES] at hlen
    have hpos := weight_sum_pos hour outdoor_temp samples hne
    rw [hmean samples hl hlen,
      sum_map_rate_const samples R (sampleWeight hour outdoor_temp) hR,
      mul_div_assoc, div_self (ne_of_gt hpos), mul_one]

/-- **C3** (witness for `get_predicted_rate_weighted_mean`): five identical
samples at rate 3/2 predict exactly 3/2. -/
theorem get_predicted_rate_weighted_mean_witness :
    get_predicted_rate
      [("bureau", List.replicate 5 (⟨3/2, none, some 10⟩ : Obs))] "bureau"
      none 10 = some (3/2) :=
  (get_predicted_rate_weighted_mean
      [("bureau", List.replicate 5 (⟨3/2, none, some 10⟩ : Obs))] "bureau"
      none 10 (3/2)).2.2 (List.replicate 5 (⟨3/2, none, some 10⟩ : Obs))
    (by simp [lookupRoom, alistGet])
    (by simp [LEARNING_MIN_SAMPLES])
    (by
      intro s hs
      rw [List.eq_of_mem_replicate hs])

/-- An event that qualifies in `_find_next_comfort_event`: relevant summary,
a parseable start, strictly in the future. -/
def goodEvent (pieces : PiecesMap) (piece_id : String) (now : ℚ)
    (e : CalEvent) (s : ℚ) : Prop :=
  relevantSummary pieces piece_id e.summary = true ∧ e.start = some s ∧ now < s

theorem findNextFold_le_start (pieces : PiecesMap) (piece_id : String)
    (now : ℚ) :
    ∀ (l : List CalEvent) (a : CalEvent) (sa : ℚ),
      ∃ p, findNextFold pieces piece_id now l (some (a, sa)) = some p ∧
        p.2 ≤ sa := by
  intro l
  induction l with
  | nil => intro a sa; exact ⟨(a, sa), rfl, le_refl sa⟩
  | cons e rest ih =>
      intro a sa
      simp only [findNextFold]
      by_cases hrel : relevantSummary pieces piece_id e.summary = true
      · rw [if_pos hrel]
        rcases hstart : e.start with _ | s
        · exact ih a sa
        · simp only []
          by_cases hle : s ≤ now
          · rw [if_pos hle]; exact ih a sa
          · rw [if_neg hle]
            by_cases hlt : s < sa
            · rw [if_pos (show betterStart (some (a, sa)) s = true by
                simp [betterStart, hlt])]
              obtain ⟨p, hp, hps⟩ := ih e s
              exact ⟨p, hp, le_trans hps (le_of_lt hlt)⟩
            · rw [if_neg (show ¬ betterStart (some (a, sa)) s = true by
                simp [betterStart, hlt])]
              exact ih a sa
      · rw [if_neg hrel]; exact ih a sa

theorem findNextFold_sound (pieces : PiecesMap) (piece_id : String)
    (now : ℚ) :
    ∀ (l : List CalEvent) (acc : Option (CalEvent × ℚ)) (p : CalEvent × ℚ),
      findNextFold pieces piece_id now l acc = some p →
      acc = some p ∨ (p.1 ∈ l ∧ goodEvent pieces piece_id now p.1 p.2) := by
  intro l
  induction l with
  | nil => intro acc p h; exact Or.inl h
  | cons e rest ih =>
      intro acc p h
      simp only [findNextFold] at h
      by_cases hrel : relevantSummary pieces piece_id e.summary = true
      · rw [if_pos hrel] at h
        rcases hstart : e.start with _ | s
        · simp only [hstart] at h
          rcases ih acc p h with hacc | ⟨hmem, hgood⟩
          · exact Or.inl hacc
          · exact Or.inr ⟨List.mem_cons_of_mem e hmem, hgood⟩
        · simp only [hstart] at h
          by_cases hle : s ≤ now
          · rw [if_pos hle] at h
            rcases ih acc p h with hacc | ⟨hmem, hgood⟩
            · exact Or.inl hacc
            · exact Or.inr ⟨List.mem_cons_of_mem e hmem, hgood⟩
          · rw [if_neg hle] at h
            by_cases hb : betterStart acc s = true
            · rw [if_pos hb] at h
              rcases ih _ p h with hacc | ⟨hmem, hgood⟩
              · have hp : (e, s) = p := Option.some.inj hacc
                refine Or.inr ?_
                rw [← hp]
                exact ⟨List.mem_cons_self e rest,
                  hrel, hstart, lt_of_not_le hle⟩
              · exact Or.inr ⟨List.mem_cons_of_mem e hmem, hgood⟩
            · rw [if_neg hb] at h
              rcases ih _ p h with hacc | ⟨hmem, hgood⟩
              · exact Or.inl hacc
              · exact Or.inr ⟨List.mem_cons_of_mem e hmem, hgood⟩
      · rw [if_neg hrel] at h
        rcases ih acc p h with hacc | ⟨hmem, hgood⟩
        · exact Or.inl hacc
        · exact Or.inr ⟨List.mem_cons_of_mem e hmem, hgood⟩

theorem findNextFold_min (pieces : PiecesMap) (piece_id : String) (now : ℚ) :
    ∀ (l : List CalEvent) (acc : Option (CalEvent × ℚ)) (e' : CalEvent)
      (s' : ℚ), e' ∈ l → goodEvent pieces piece_id now e' s' →
      ∃ p, findNextFold pieces piece_id now l acc = some p ∧ p.2 ≤ s' := by
  intro l
  induction l with
  | nil =>
      intro acc e' s' hmem _
      exact absurd hmem (List.not_mem_nil e')
  | cons e rest ih =>
      intro acc e' s' hmem hgood
      simp only [findNextFold]
      rcases List.mem_cons.mp hmem with heq | hmem'
      · subst heq
        obtain ⟨hrel, hstart, hlt⟩ := hgood
        rw [if_pos hrel]
        simp only [hstart]
        rw [if_neg (not_le.mpr hlt)]
        rcases acc with _ | ⟨a, sa⟩
        · rw [if_pos (show betterStart none s' = true from rfl)]
          exact findNextFold_le_start pieces piece_id now rest e' s'
        · by_cases hlt2 : s' < sa
          · rw [if_pos (show betterStart (some (a, sa)) s' = true by
              simp [betterStart, hlt2])]
            exact findNextFold_le_start pieces piece_id now rest e' s'
          · rw [if_neg (show ¬ betterStart (some (a, sa)) s' = true by
              simp [betterStart, hlt2])]
            obtain ⟨p, hp, hps⟩ :=
              findNextFold_le_start pieces piece_id now rest a sa
            exact ⟨p, hp, le_trans hps (not_lt.mp hlt2)⟩
      · by_cases hrel : relevantSummary pieces piece_id e.summary = true
        · rw [if_pos hrel]
          rcases hstart : e.start with _ | s
          · exact ih acc e' s' hmem' hgood
          · simp only []
            by_cases hle : s ≤ now
            · rw [if_pos hle]
              exact ih acc e' s' hmem' hgood
            · rw [if_neg hle]
              by_cases hb : betterStart acc s = true
              · rw [if_pos hb]
                exact ih _ e' s' hmem' hgood
              · rw [if_neg hb]
                exact ih _ e' s' hmem' hgood
        · rw [if_neg hrel]
          exact ih acc e' s' hmem' hgood

/-- **C6**: `_check_preheat_trigger` fires exactly when some comfort event
relevant to the room (normalized summary "confort", "confort {display name
lowercased}" or "confort {room id lowercased}") has a start strictly in the
future at most `preheat_time` minutes away; it is false when no such event
exists, when the nearest one has started, and when the nearest one is
farther away than the preheat time. -/
theorem check_preheat_trigger_iff (pieces : PiecesMap) (piece_id : String)
    (calendar_events : List CalEvent) (preheat_time : ℤ) (now : ℚ) :
    check_preheat_trigger pieces piece_id calendar_events preheat_time now =
        true ↔
      ∃ e ∈ calendar_events,
        relevantSummary pieces piece_id e.summary = true ∧
        ∃ s, e.start = some s ∧ now < s ∧
          s - now ≤ (preheat_time : ℚ) := by
  unfold check_preheat_trigger find_next_comfort_event
  constructor
  · intro h
    rcases hf : findNextFold pieces piece_id now calendar_events none
      with _ | p
    · rw [hf] at h
      simp at h
    · rw [hf] at h
      rcases findNextFold_sound pieces piece_id now calendar_events none p hf
        with hacc | ⟨hmem, hrel, hstart, hlt⟩
      · exact absurd hacc (by simp)
      · refine ⟨p.1, hmem, hrel, p.2, hstart, hlt, ?_⟩
        simp only [Option.map_some', hstart] at h
        rw [if_neg (not_le.mpr hlt)] at h
        exact of_decide_eq_true h
  · rintro ⟨e, hmem, hrel, s, hstart, hlt, hle⟩
    obtain ⟨p, hf, hps⟩ := findNextFold_min pieces piece_id now
      calendar_events none e s hmem ⟨hrel, hstart, hlt⟩
    rcases findNextFold_sound pieces piece_id now calendar_events none p hf
      with hacc | ⟨_, _, hstart2, hlt2⟩
    · exact absurd hacc (by simp)
    · rw [hf]
      simp only [Option.map_some', hstart2]
      rw [if_neg (not_le.mpr hlt2)]
      exact decide_eq_true (le_trans (by linarith) hle)

/-- **C6** (witness for `check_preheat_trigger_iff`): a global comfort event
10 minutes away triggers with a 30-minute preheat need. -/
theorem check_preheat_trigger_iff_witness :
    check_preheat_trigger [] "bureau"
      [⟨"confort", some 10, none⟩] 30 0 = true :=
  (check_preheat_trigger_iff [] "bureau"
      [⟨"confort", some 10, none⟩] 30 0).mpr
    ⟨⟨"confort", some 10, none⟩, by simp, by decide, 10, rfl,
      by norm_num, by norm_num⟩

/-- **C7**: the anticipation upgrade fires iff the preheat trigger is set
while the resolved mode is Eco, and then rewrites only the emitted mode,
source and target (to Comfort, Anticipation, and the room's configured
Comfort temperature) — every other emitted field is kept verbatim; and the
override map returned by the tick is exactly the one `_resolve_mode` left,
so an anticipation upgrade never creates, modifies or deletes a persisted
override. -/
theorem anticipation_upgrade_frame (pieces : PiecesMap) (piece_id : String)
    (piece_config : PieceConfig) (security_factor : ℚ)
    (min_preheat_time : ℤ) (derivative_window : ℚ) (ov : Overrides)
    (hist : List (ℚ × ℚ)) (learner : Data)
    (calendar_events : List CalEvent) (parsed : ParsedEvents)
    (maison_occupee : Bool) (outdoor_temp temp_actuelle : Option ℚ)
    (now : ℚ) (nowHour : ℕ) (dec : RoomDecision) :
    (updateRoomTick pieces piece_id piece_config security_factor
        min_preheat_time derivative_window ov hist learner calendar_events
        parsed maison_occupee outdoor_temp temp_actuelle now nowHour).2.1 =
      (resolve_mode ov pieces piece_id parsed maison_occupee now).2 ∧
    (dec.prechauffage_actif = true → dec.mode = Mode.eco →
      applyAnticipation piece_config dec =
        { dec with
            mode := Mode.confort,
            source := Source.anticipation,
            consigne :=
              (alistGet piece_config.temperatures Mode.confort).getD 19 }) ∧
    (¬ (dec.prechauffage_actif = true ∧ dec.mode = Mode.eco) →
      applyAnticipation piece_config dec = dec) := by
  refine ⟨rfl, ?_, ?_⟩
  · intro h1 h2
    unfold applyAnticipation
    rw [if_pos ⟨h1, h2⟩]
  · intro hn
    unfold applyAnticipation
    rw [if_neg hn]

/-- **C7** (witness for `anticipation_upgrade_frame`): the upgrade applied to
an Eco decision with the trigger set yields Comfort / Anticipation / the
configured Comfort temperature, all other fields verbatim. -/
theorem anticipation_upgrade_frame_witness :
    applyAnticipation ⟨none, [(Mode.confort, 20)]⟩
        ⟨Mode.eco, Source.defaut, 17, none, none, none, 30, true, none⟩ =
      ⟨Mode.confort, Source.anticipation, 20, none, none, none, 30, true,
        none⟩ := by
  have h := (anticipation_upgrade_frame [] "salon"
    ⟨none, [(Mode.confort, 20)]⟩ 1 30 30 [] [] [] [] ⟨false, false, []⟩
    true none none 0 12
    ⟨Mode.eco, Source.defaut, 17, none, none, none, 30, true, none⟩).2.1
    rfl rfl
  rw [h]
  simp [alistGet]

/-! ## Summary-normalization invariance (C9) -/

theorem relevantSummary_congr (pieces : PiecesMap) (piece_id : String)
    (s1 s2 : String) (hn : normalizeSummary s1 = normalizeSummary s2) :
    relevantSummary pieces piece_id s1 = relevantSummary pieces piece_id s2 := by
  unfold relevantSummary
  rw [hn]

theorem parseStep_congr (now : ℚ) (st en : Option ℚ) (s1 s2 : String)
    (h : summaryKind s1 = summaryKind s2) (r : ParsedEvents) :
    parseStep now r ⟨s1, st, en⟩ = parseStep now r ⟨s2, st, en⟩ := by
  unfold parseStep
  rcases st with _ | s
  · rfl
  · rcases en with _ | en
    · rfl
    · simp only []
      rw [h]

theorem parse_events_congr (now : ℚ) (e1 e2 : CalEvent)
    (hstep : ∀ r, parseStep now r e1 = parseStep now r e2)
    (pre post : List CalEvent) :
    parse_calendar_events (pre ++ e1 :: post) now =
      parse_calendar_events (pre ++ e2 :: post) now := by
  unfold parse_calendar_events
  rw [List.foldl_append, List.foldl_append, List.foldl_cons,
    List.foldl_cons, hstep]

/-- The part of a `(next_event, next_start)` accumulator that the rest of
the computation can observe: the selected start instants. -/
def evStartRel : Option (CalEvent × ℚ) → Option (CalEvent × ℚ) → Prop
  | none, none => True
  | some p1, some p2 => p1.1.start = p2.1.start ∧ p1.2 = p2.2
  | _, _ => False

theorem evStartRel_refl (a : Option (CalEvent × ℚ)) : evStartRel a a := by
  rcases a with _ | p
  · trivial
  · exact ⟨rfl, rfl⟩

theorem betterStart_rel (a1 a2 : Option (CalEvent × ℚ)) (s : ℚ)
    (h : evStartRel a1 a2) : betterStart a1 s = betterStart a2 s := by
  rcases a1 with _ | p1 <;> rcases a2 with _ | p2
  · rfl
  · exact absurd h (by simp [evStartRel])
  · exact absurd h (by simp [evStartRel])
  · simp only [betterStart]
    rw [h.2]

theorem findNextFold_rel_congr (pieces : PiecesMap) (piece_id : String)
    (now : ℚ) :
    ∀ (l : List CalEvent) (acc1 acc2 : Option (CalEvent × ℚ)),
      evStartRel acc1 acc2 →
      evStartRel (findNextFold pieces piece_id now l acc1)
        (findNextFold pieces piece_id now l acc2) := by
  intro l
  induction l with
  | nil => intro acc1 acc2 h; exact h
  | cons e rest ih =>
      intro acc1 acc2 h
      simp only [findNextFold]
      by_cases hrel : relevantSummary pieces piece_id e.summary = true
      · rw [if_pos hrel, if_pos hrel]
        rcases hstart : e.start with _ | s
        · simp only [hstart]
          exact ih acc1 acc2 h
        · simp only [hstart]
          by_cases hle : s ≤ now
          · rw [if_pos hle, if_pos hle]
            exact ih acc1 acc2 h
          · rw [if_neg hle, if_neg hle, betterStart_rel acc1 acc2 s h]
            by_cases hb : betterStart acc2 s = true
            · rw [if_pos hb, if_pos hb]
              exact ih _ _ (evStartRel_refl _)
            · rw [if_neg hb, if_neg hb]
              exact ih acc1 acc2 h
      · rw [if_neg hrel, if_neg hrel]
        exact ih acc1 acc2 h

theorem findNextFold_swap_congr (pieces : PiecesMap) (piece_id : String)
    (now : ℚ) (s1 s2 : String)
    (hn : normalizeSummary s1 = normalizeSummary s2) (st en1 en2 : Option ℚ)
    (post : List CalEvent) (acc1 acc2 : Option (CalEvent × ℚ))
    (h : evStartRel acc1 acc2) :
    evStartRel
      (findNextFold pieces piece_id now (⟨s1, st, en1⟩ :: post) acc1)
      (findNextFold pieces piece_id now (⟨s2, st, en2⟩ :: post) acc2) := by
  simp only [findNextFold]
  rw [relevantSummary_congr pieces piece_id s1 s2 hn]
  by_cases hrel : relevantSummary pieces piece_id s2 = true
  · rw [if_pos hrel, if_pos hrel]
    rcases st with _ | s
    · exact findNextFold_rel_congr pieces piece_id now post acc1 acc2 h
    · simp only []
      by_cases hle : s ≤ now
      · rw [if_pos hle, if_pos hle]
        exact findNextFold_rel_congr pieces piece_id now post acc1 acc2 h
      · rw [if_neg hle, if_neg hle, betterStart_rel acc1 acc2 s h]
        by_cases hb : betterStart acc2 s = true
        · rw [if_pos hb, if_pos hb]
          exact findNextFold_rel_congr pieces piece_id now post _ _ ⟨rfl, rfl⟩
        · rw [if_neg hb, if_neg hb]
          exact findNextFold_rel_congr pieces piece_id now post acc1 acc2 h
  · rw [if_neg hrel, if_neg hrel]
    exact findNextFold_rel_congr pieces piece_id now post acc1 acc2 h

theorem check_trigger_of_rel (pieces : PiecesMap) (piece_id : String)
    (l1 l2 : List CalEvent) (preheat_time : ℤ) (now : ℚ)
    (h : evStartRel (findNextFold pieces piece_id now l1 none)
      (findNextFold pieces piece_id now l2 none)) :
    check_preheat_trigger pieces piece_id l1 preheat_time now =
      check_preheat_trigger pieces piece_id l2 preheat_time now := by
  unfold check_preheat_trigger find_next_comfort_event
  rcases h1 : findNextFold pieces piece_id now l1 none with _ | p1
  · rcases h2 : findNextFold pieces piece_id now l2 none with _ | p2
    · rfl
    · rw [h1, h2] at h
      exact h.elim
  · rcases h2 : findNextFold pieces piece_id now l2 none with _ | p2
    · rw [h1, h2] at h
      exact h.elim
    · rw [h1, h2] at h
      obtain ⟨hs, _⟩ := h
      simp only [Option.map_some']
      rw [hs]

theorem findNextFold_append (pieces : PiecesMap) (piece_id : String)
    (now : ℚ) :
    ∀ (l1 l2 : List CalEvent) (acc : Option (CalEvent × ℚ)),
      findNextFold pieces piece_id now (l1 ++ l2) acc =
        findNextFold pieces piece_id now l2
          (findNextFold pieces piece_id now l1 acc) := by
  intro l1
  induction l1 with
  | nil => intro l2 acc; rfl
  | cons e rest ih =>
      intro l2 acc
      simp only [List.cons_append, findNextFold]
      by_cases hrel : relevantSummary pieces piece_id e.summary = true
      · rw [if_pos hrel, if_pos hrel]
        rcases hstart : e.start with _ | s
        · simp only [hstart]
          exact ih l2 acc
        · simp only [hstart]
          by_cases hle : s ≤ now
          · rw [if_pos hle, if_pos hle]; exact ih l2 acc
          · rw [if_neg hle, if_neg hle]
            by_cases hb : betterStart acc s = true
            · rw [if_pos hb, if_pos hb]; exact ih l2 _
            · rw [if_neg hb, if_neg hb]; exact ih l2 acc
      · rw [if_neg hrel, if_neg hrel]; exact ih l2 acc

/-- **C9** (counterexample): "CONFORT   Bureau" (double space) and
"confort bureau" are treated identically by the active-event interpreter,
but NOT by the next-comfort-event lookup (which requires an exact
single-space match) nor by the preheat trigger built on it. -/
theorem calendar_multispace_counterexample :
    parse_calendar_events [⟨"CONFORT   Bureau", some 0, some 20⟩] 10 =
      parse_calendar_events [⟨"confort bureau", some 0, some 20⟩] 10 ∧
    find_next_comfort_event [] "bureau"
      [⟨"CONFORT   Bureau", some 10, some 20⟩] 0 = none ∧
    find_next_comfort_event [] "bureau"
      [⟨"confort bureau", some 10, some 20⟩] 0 =
        some ⟨"confort bureau", some 10, some 20⟩ ∧
    check_preheat_trigger [] "bureau"
      [⟨"CONFORT   Bureau", some 10, some 20⟩] 30 0 = false ∧
    check_preheat_trigger [] "bureau"
      [⟨"confort bureau", some 10, some 20⟩] 30 0 = true := by
  have hk : summaryKind "CONFORT   Bureau" = summaryKind "confort bureau" :=
    by decide
  have hrel1 : relevantSummary [] "bureau" "CONFORT   Bureau" = false := by
    decide
  have hrel2 : relevantSummary [] "bureau" "confort bureau" = true := by
    decide
  have hfind1 : find_next_comfort_event [] "bureau"
      [⟨"CONFORT   Bureau", some 10, some 20⟩] 0 = none := by
    simp only [find_next_comfort_event, findNextFold]
    rw [if_neg (by rw [hrel1]; simp)]
    rfl
  have hfind2 : find_next_comfort_event [] "bureau"
      [⟨"confort bureau", some 10, some 20⟩] 0 =
        some ⟨"confort bureau", some 10, some 20⟩ := by
    simp only [find_next_comfort_event, findNextFold]
    rw [if_pos hrel2]
    rw [if_neg (by norm_num : ¬ ((10 : ℚ) ≤ 0)),
      if_pos (show betterStart none 10 = true from rfl)]
    rfl
  refine ⟨?_, hfind1, hfind2, ?_, ?_⟩
  · exact parse_events_congr 10 _ _
      (parseStep_congr 10 (some 0) (some 20) _ _ hk) [] []
  · unfold check_preheat_trigger
    rw [hfind1]
  · unfold check_preheat_trigger
    rw [hfind2]
    simp only []
    rw [if_neg (by norm_num : ¬ ((10 : ℚ) ≤ 0))]
    norm_num

/-- **C9** (amended): normalization makes matching case-insensitive and
separator-tolerant: "confort - salon" and "confort salon"
produce identical results in the interpreter, in next-comfort-event lookup
and in the preheat trigger, for every surrounding event list and room; the
whitespace claim for "CONFORT   Bureau" vs "confort bureau" holds for the
active-event interpreter only (the trailing strip of the captured room
token absorbs extra spaces there), not for next-comfort lookup, which
compares the whole normalized summary against exact single-space forms. -/
theorem calendar_normalization_invariance (now : ℚ) (st en : Option ℚ)
    (pre post : List CalEvent) (pieces : PiecesMap) (piece_id : String)
    (preheat_time : ℤ) :
    parse_calendar_events (pre ++ ⟨"CONFORT   Bureau", st, en⟩ :: post) now =
      parse_calendar_events (pre ++ ⟨"confort bureau", st, en⟩ :: post)
        now ∧
    parse_calendar_events (pre ++ ⟨"confort - salon", st, en⟩ :: post) now =
      parse_calendar_events (pre ++ ⟨"confort salon", st, en⟩ :: post) now ∧
    (find_next_comfort_event pieces piece_id
        (pre ++ ⟨"confort - salon", st, en⟩ :: post) now).bind
        (fun e => e.start) =
      (find_next_comfort_event pieces piece_id
        (pre ++ ⟨"confort salon", st, en⟩ :: post) now).bind
        (fun e => e.start) ∧
    check_preheat_trigger pieces piece_id
        (pre ++ ⟨"confort - salon", st, en⟩ :: post) preheat_time now =
      check_preheat_trigger pieces piece_id
        (pre ++ ⟨"confort salon", st, en⟩ :: post) preheat_time now := by
  have hn : normalizeSummary "confort - salon" =
      normalizeSummary "confort salon" := by decide
  have hrel : ∀ l1 l2 : List CalEvent,
      l1 = pre ++ ⟨"confort - salon", st, en⟩ :: post →
      l2 = pre ++ ⟨"confort salon", st, en⟩ :: post →
      evStartRel (findNextFold pieces piece_id now l1 none)
        (findNextFold pieces piece_id now l2 none) := by
    intro l1 l2 h1 h2
    subst h1; subst h2
    rw [findNextFold_append, findNextFold_append]
    exact findNextFold_swap_congr pieces piece_id now _ _ hn st en en post _ _
      (evStartRel_refl _)
  refine ⟨?_, ?_, ?_, ?_⟩
  · exact parse_events_congr now _ _
      (parseStep_congr now st en _ _ (by decide)) pre post
  · exact parse_events_congr now _ _
      (parseStep_congr now st en _ _ (by decide)) pre post
  · have h := hrel _ _ rfl rfl
    unfold find_next_comfort_event
    rcases h1 : findNextFold pieces piece_id now
        (pre ++ ⟨"confort - salon", st, en⟩ :: post) none with _ | p1
    · rcases h2 : findNextFold pieces piece_id now
          (pre ++ ⟨"confort salon", st, en⟩ :: post) none with _ | p2
      · rfl
      · rw [h1, h2] at h
        exact h.elim
    · rcases h2 : findNextFold pieces piece_id now
          (pre ++ ⟨"confort salon", st, en⟩ :: post) none with _ | p2
      · rw [h1, h2] at h
        exact h.elim
      · rw [h1, h2] at h
        obtain ⟨hs, _⟩ := h
        simp only [Option.map_some', Option.some_bind]
        rw [hs]
  · exact check_trigger_of_rel pieces piece_id _ _ preheat_time now
      (hrel _ _ rfl rfl)

/-! ## Learner persistence (C8)

`_save_data` serializes `self._data` with `json.dump`; `_load_data` reads it
back with `json.load` (missing file → the store starts empty, corrupt file →
empty history).  The JSON value space and the shape of a serialized
observation dict are modelled explicitly; `json.dump`/`json.load` of the
dict-of-lists-of-dicts is the `encode`/`decode` pair below. -/

inductive Json where
  | null
  | num (q : ℚ)
  | str (s : String)
  | arr (items : List Json)
  | obj (fields : List (String × Json))

def encodeOptQ : Option ℚ → Json
  | none => .null
  | some q => .num q

def encodeOptN : Option ℕ → Json
  | none => .null
  | some n => .num n

def encodeObs (o : Obs) : Json :=
  .obj [("rate", .num o.rate), ("outdoor_temp", encodeOptQ o.outdoor_temp),
    ("hour", encodeOptN o.hour)]

def encodeData (d : Data) : Json :=
  .obj (d.map (fun p => (p.1, .arr (p.2.map encodeObs))))

def decodeOptQ : Json → Option (Option ℚ)
  | .null => some none
  | .num q => some (some q)
  | _ => none

def decodeOptN : Json → Option (Option ℕ)
  | .null => some none
  | .num q => if 0 ≤ q ∧ q.den = 1 then some (some q.num.toNat) else none
  | _ => none

def decodeObs : Json → Option Obs
  | .obj [("rate", .num r), ("outdoor_temp", jo), ("hour", jh)] =>
      match decodeOptQ jo, decodeOptN jh with
      | some o, some h => some ⟨r, o, h⟩
      | _, _ => none
  | _ => none

def decodeObsList : List Json → Option (List Obs)
  | [] => some []
  | j :: rest =>
      match decodeObs j, decodeObsList rest with
      | some o, some l => some (o :: l)
      | _, _ => none

def decodeRooms : List (String × Json) → Option Data
  | [] => some []
  | (k, .arr items) :: rest =>
      match decodeObsList items, decodeRooms rest with
      | some l, some d => some ((k, l) :: d)
      | _, _ => none
  | _ => none

def decodeData : Json → Option Data
  | .obj fields => decodeRooms fields
  | _ => none

/-- `_save_data`: the blob written to durable storage. -/
def save_data (d : Data) : Json := encodeData d

/-- `_load_data` on construction of a fresh learner: a missing blob or one
that does not decode leaves the store empty. -/
def load_data (blob : Option Json) : Data :=
  match blob with
  | none => []
  | some j => (decodeData j).getD []

theorem decodeObs_encodeObs (o : Obs) : decodeObs (encodeObs o) = some o := by
  obtain ⟨r, ot, h⟩ := o
  rcases ot with _ | q <;> rcases h with _ | n <;>
    simp [encodeObs, encodeOptQ, encodeOptN, decodeObs, decodeOptQ,
      decodeOptN]

theorem decodeObsList_encode (l : List Obs) :
    decodeObsList (l.map encodeObs) = some l := by
  induction l with
  | nil => rfl
  | cons o rest ih =>
      simp only [List.map_cons, decodeObsList, decodeObs_encodeObs, ih]

theorem decodeRooms_encode (d : Data) :
    decodeRooms (d.map (fun p => (p.1, .arr (p.2.map encodeObs)))) =
      some d := by
  induction d with
  | nil => rfl
  | cons p rest ih =>
      obtain ⟨k, l⟩ := p
      simp only [List.map_cons, decodeRooms, decodeObsList_encode, ih]

theorem load_save_roundtrip (d : Data) :
    load_data (some (save_data d)) = d := by
  simp only [load_data, save_data, encodeData, decodeData,
    decodeRooms_encode, Option.getD_some]

/-- **C8**: persisting the learner's history and constructing a fresh
learner from the persisted blob restores the store exactly — in particular
every room's sample count and every prediction agree between the original
and the freshly loaded learner. -/
theorem learner_persistence_roundtrip (d : Data) (piece : String)
    (outdoor_temp : Option ℚ) (hour : ℕ) :
    load_data (some (save_data d)) = d ∧
    sampleCount (load_data (some (save_data d))) piece =
      sampleCount d piece ∧
    get_predicted_rate (load_data (some (save_data d))) piece outdoor_temp
        hour =
      get_predicted_rate d piece outdoor_temp hour := by
  refine ⟨load_save_roundtrip d, ?_, ?_⟩ <;> rw [load_save_roundtrip d]

end Chauffage
